import Mathlib

/-!
Shallow embedding of the sap_http HTTP/1.x engine (src/include/net/http.h,
src/src/net/url.cpp, headers.cpp, request.cpp, response_impl.cpp,
client_impl.cpp, server.cpp).  C++ byte strings are modelled as `List Char`
(one `Char` per byte; all inputs of interest are ASCII), `std::map` as a
key-sorted association list, fallible operations as `Except`/`Option`.
-/

namespace Http

deriving instance DecidableEq for Except

/-- Byte strings of the C++ code, one `Char` per byte. -/
abbrev Str := List Char

/-- Models `::tolower` in the C locale on ASCII: maps A-Z to a-z, fixes the rest. -/
def toLowerChar (c : Char) : Char :=
  if 'A' ≤ c ∧ c ≤ 'Z' then Char.ofNat (c.toNat + 32) else c

/-- Models `std::transform(..., ::tolower)` over a whole string. -/
def lowerStr (s : Str) : Str := s.map toLowerChar

/-- Models `std::string::find(pat)`: index of the first occurrence of `pat`,
`none` for `npos`. -/
def findSub (pat : Str) : Str → Option Nat
  | [] => if pat.isPrefixOf [] then some 0 else none
  | c :: rest =>
    if pat.isPrefixOf (c :: rest) then some 0
    else (findSub pat rest).map (· + 1)

/-- Models `std::isspace` in the C locale. -/
def isSpaceC (c : Char) : Bool :=
  -- the last two are \v and \f
  c = ' ' || c = '\t' || c = '\n' || c = '\r' || c = Char.ofNat 11 || c = Char.ofNat 12

/-- Models `istream >> std::string`: skip whitespace, take the maximal
non-whitespace run, return (token, rest of stream). -/
def readToken (s : Str) : Str × Str :=
  let s1 := s.dropWhile isSpaceC
  (s1.takeWhile (fun c => !isSpaceC c), s1.dropWhile (fun c => !isSpaceC c))

/-- Digit run to its numeric value. -/
def digitsToNat (ds : Str) : Nat :=
  ds.foldl (fun acc c => acc * 10 + (c.toNat - '0'.toNat)) 0

/-- Models `std::to_string` on an unsigned value. -/
def natToStr (n : Nat) : Str := Nat.toDigits 10 n

/-- Models `std::map<std::string,std::string>` contents: a key-sorted
association list.  `strLt` is `operator<` on `std::string`
(lexicographic by byte). -/
def strLt : Str → Str → Bool
  | [], [] => false
  | [], _ :: _ => true
  | _ :: _, [] => false
  | a :: as, b :: bs => if a < b then true else if b < a then false else strLt as bs

/-- Models `map[key] = value`: ordered insert, overwriting an equal key. -/
def mapInsert (k v : Str) : List (Str × Str) → List (Str × Str)
  | [] => [(k, v)]
  | (k', v') :: rest =>
    if strLt k k' then (k, v) :: (k', v') :: rest
    else if strLt k' k then (k', v') :: mapInsert k v rest
    else (k', v) :: rest

/-- The `Headers` store (http.h): a `std::map` from header name to value. -/
structure Headers where
  data : List (Str × Str) := []
deriving DecidableEq, Repr

/-- Models `Headers::set` (headers.cpp): lower-case the key, then `data[key] = value`. -/
def Headers.set (h : Headers) (key value : Str) : Headers :=
  ⟨mapInsert (lowerStr key) value h.data⟩

/-- Models `Headers::get` (headers.cpp): lower-case the key, return the mapped
value or `""` when absent. -/
def Headers.get (h : Headers) (key : Str) : Str :=
  (h.data.lookup (lowerStr key)).getD []

/-- Models `Headers::has` (headers.cpp). -/
def Headers.has (h : Headers) (key : Str) : Bool :=
  (h.data.lookup (lowerStr key)).isSome

/-- The `URL` record (http.h). -/
structure URL where
  scheme : Str := []
  host : Str := []
  port : Str := []
  path : Str := []
  query : Str := []
deriving DecidableEq, Repr

/-- Models `URL::full_path` (http.h line 63): `path + query`. -/
def URL.full_path (u : URL) : Str := u.path ++ u.query

/-- url.cpp lines 28-33: `host_end - pos`, i.e. `std::min(path_start,
query_start)` with npos (`none`) as the largest value, then npos replaced
by the input length; relative to the input after `"://"`. -/
def hostLen (t : Str) : Nat :=
  match findSub ['/'] t, findSub ['?'] t with
  | some a, some b => min a b
  | some a, none => a
  | none, some b => b
  | none, none => t.length

/-- Models `URL::parse` (url.cpp lines 17-56).  `t` is the input from position
`scheme_end + 3` on, so the `find(c, pos)` calls and the substring
arithmetic of the C++ are expressed with indices relative to `t`. -/
def URL.parse (raw : Str) : Except Str URL :=
  match findSub "://".data raw with
  | none => .error "Invalid URL: missing scheme".data
  | some scheme_end =>
    let scheme := raw.take scheme_end
    let t := raw.drop (scheme_end + 3)
    let path_start := findSub ['/'] t
    let query_start := findSub ['?'] t
    let host_port := t.take (hostLen t)
    let hp :=
      match findSub [':'] host_port with
      | some pp => (host_port.take pp, host_port.drop (pp + 1))
      | none => (host_port, if scheme = "https".data then "443".data else "80".data)
    let path :=
      match path_start with
      | none => "/".data
      | some ps =>
        match query_start with
        | none => t.drop ps
        | some qs =>
          -- path_end - path_start on size_t: when query_start < path_start
          -- the count wraps around and substr clamps it to the rest
          if qs < ps then t.drop ps
          else (t.drop ps).take (qs - ps)
    let query :=
      match query_start with
      | none => []
      | some qs => t.drop qs
    .ok { scheme := scheme, host := hp.1, port := hp.2, path := path, query := query }

/-- The input from just after the first `"://"` on (empty when there is
none); matches `raw_url.substr(scheme_end + 3)` in url.cpp. -/
def urlTail (raw : Str) : Str :=
  match findSub "://".data raw with
  | some se => raw.drop (se + 3)
  | none => []

/-- The host/port segment: the part of `urlTail` before the first `/` or
`?`. -/
def hostSegment (raw : Str) : Str :=
  (urlTail raw).takeWhile (fun c => !(c == '/' || c == '?'))

/-! ### Message models (http.h, request.cpp, response_impl.cpp) -/

/-- The `EMethod` enumeration (http.h line 15). -/
inductive EMethod where
  | GET
  | POST
  | PUT
  | DELETE
  | HEAD
  | PATCH
  | OPTIONS
deriving DecidableEq, Repr

/-- Models `method_to_string` (http.h lines 17-35). -/
def method_to_string : EMethod → Str
  | .GET => "GET".data
  | .POST => "POST".data
  | .PUT => "PUT".data
  | .DELETE => "DELETE".data
  | .HEAD => "HEAD".data
  | .PATCH => "PATCH".data
  | .OPTIONS => "OPTIONS".data

/-- Models `string_to_method` (http.h lines 37-53): any unrecognized token maps
to `GET`. -/
def string_to_method (s : Str) : EMethod :=
  if s = "GET".data then .GET
  else if s = "POST".data then .POST
  else if s = "PUT".data then .PUT
  else if s = "DELETE".data then .DELETE
  else if s = "HEAD".data then .HEAD
  else if s = "PATCH".data then .PATCH
  else if s = "OPTIONS".data then .OPTIONS
  else .GET

/-- The `Request` record (http.h lines 75-90); `params` is omitted (never read by the
code under scrutiny). -/
structure Request where
  method : EMethod := .GET
  url : URL := {}
  headers : Headers := {}
  body : Str := []
  timeout : Nat := 30000
deriving DecidableEq, Repr

/-- The `Request(EMethod, URL)` constructor (request.cpp lines 5-11). -/
def Request.make (m : EMethod) (u : URL) : Request :=
  { method := m, url := u,
    headers :=
      if u.host ≠ [] then
        (({} : Headers).set "User-Agent".data "cpp-http/1.0".data).set
          "Accept".data "*/*".data
      else {} }

/-- Models `Request::set_header` (request.cpp lines 13-15). -/
def Request.set_header (r : Request) (key value : Str) : Request :=
  { r with headers := r.headers.set key value }

/-- Models `Request::set_body` (request.cpp lines 17-22): store the body, then
auto-set `Content-Length` only when the header is not already present. -/
def Request.set_body (r : Request) (data : Str) : Request :=
  let r1 := { r with body := data }
  if r1.headers.has "Content-Length".data then r1
  else { r1 with headers := r1.headers.set "Content-Length".data (natToStr data.length) }

/-- The `Response` record (http.h lines 92-102). -/
structure Response where
  status_code : Int := 0
  status_text : Str := []
  headers : Headers := {}
  body : Str := []
deriving DecidableEq, Repr

/-- The `Response(i32, std::string)` constructor (response_impl.cpp). -/
def Response.make (code : Int) (body_content : Str) : Response :=
  { status_code := code, status_text := [],
    headers :=
      (({} : Headers).set "Content-Length".data (natToStr body_content.length)).set
        "Content-Type".data "text/plain".data,
    body := body_content }

/-- Models `Response::is_success` (http.h lines 99-101). -/
def Response.is_success (r : Response) : Bool :=
  200 ≤ r.status_code && r.status_code < 300

/-! ### Wire codec helpers shared by client and server -/

/-- Models `std::getline(istringstream, line)` repeated to exhaustion: split at
newlines; a trailing newline does not produce a final empty line. -/
def getlines : Str → List Str
  | [] => []
  | c :: rest =>
    if c = '\n' then [] :: getlines rest
    else
      match getlines rest with
      | [] => [[c]]
      | l :: ls => (c :: l) :: ls

/-- Models `istream >> int` (C++11): skip whitespace, optional sign, a digit run;
returns (stream still good, value stored, rest of stream).  On no digits
the value is 0; on overflow it is clamped to INT_MAX/INT_MIN; both set
failbit (first component false). -/
def parseIntToken (s : Str) : Bool × Int × Str :=
  let s1 := s.dropWhile isSpaceC
  let sign : Int × Str :=
    match s1 with
    | '-' :: r => (-1, r)
    | '+' :: r => (1, r)
    | _ => (1, s1)
  let ds := sign.2.takeWhile (fun c => c.isDigit)
  let rest := sign.2.dropWhile (fun c => c.isDigit)
  if ds = [] then (false, 0, rest)
  else
    let v : Int := sign.1 * (digitsToNat ds : Int)
    if v > 2147483647 then (false, 2147483647, rest)
    else if v < -2147483648 then (false, -2147483648, rest)
    else (true, v, rest)

/-- The status-line block of `Client::read_response` (client_impl.cpp
lines 87-95): `status_stream >> http_version >> resp.status_code`, then
`getline` for the status text and the one-leading-space trim.  When an
extraction fails the stream has failbit set, the later `getline` does not
run, and the text stays empty. -/
def parseStatusLine (line : Str) : Int × Str :=
  let t := readToken line
  if t.1 = [] then (0, [])
  else
    let r := parseIntToken t.2
    if r.1 = false then (r.2.1, [])
    else
      let text := r.2.2
      (r.2.1, if text.head? = some ' ' then text.tail else text)

/-- One `Key: Value` header line (client_impl.cpp lines 97-107, server.cpp
lines 38-48): strip a trailing CR, split at the first colon, trim one
leading space of the value, ignore lines without a colon. -/
def parseHeaderLine (h : Headers) (line : Str) : Headers :=
  let line1 := if line.getLast? = some '\r' then line.dropLast else line
  match findSub [':'] line1 with
  | none => h
  | some colon =>
    let key := line1.take colon
    let v := line1.drop (colon + 1)
    h.set key (if v.head? = some ' ' then v.tail else v)

/-- The client header loop (client_impl.cpp line 97): header lines are
consumed until an empty or `"\r"` line; later lines are ignored. -/
def parseHeaderLines (h : Headers) : List Str → Headers
  | [] => h
  | line :: rest =>
    if line = [] ∨ line = ['\r'] then h
    else parseHeaderLines (parseHeaderLine h line) rest

/-- Parsing of a complete header section (client_impl.cpp lines 83-108):
status line from the first line, headers from the rest, empty body. -/
def parseHeaderSection (hs : Str) : Response :=
  let lines := getlines hs
  let st :=
    match lines with
    | [] => ((0 : Int), ([] : Str))
    | l :: _ => parseStatusLine l
  { status_code := st.1, status_text := st.2,
    headers := parseHeaderLines {} lines.tail, body := [] }

/-- Models `std::stoull` on base 10 (client_impl.cpp line 113): `none` models the
thrown `invalid_argument` (no digits) or `out_of_range` (value beyond
2^64 - 1 before the optional unary minus is applied). -/
def stoull (s : Str) : Option Nat :=
  let s1 := s.dropWhile isSpaceC
  let sign : Bool × Str :=
    match s1 with
    | '-' :: r => (true, r)
    | '+' :: r => (false, r)
    | _ => (false, s1)
  let ds := sign.2.takeWhile (fun c => c.isDigit)
  if ds = [] then none
  else
    let v := digitsToNat ds
    if v ≥ 2 ^ 64 then none
    else some (if sign.1 then (2 ^ 64 - v) % 2 ^ 64 else v)

/-- client_impl.cpp lines 111-114: `content_length` is 0 unless a
non-empty `Content-Length` value parses via `stoull`; `none` models the
exception escaping `read_response`. -/
def contentLengthOf (h : Headers) : Option Nat :=
  let cl := h.get "content-length".data
  if cl = [] then some 0 else stoull cl

/-- client_impl.cpp lines 115-118: the chunked flag is set when the
`Transfer-Encoding` value contains the substring `"chunked"`. -/
def chunkedOf (h : Headers) : Bool :=
  (findSub "chunked".data (h.get "transfer-encoding".data)).isSome

/-! ### Client request serialization (client_impl.cpp lines 43-55) -/

/-- The header block of the serialized request: one `Key: Value` CRLF line
per map entry, in map order. -/
def headerLines : List (Str × Str) → Str
  | [] => []
  | (k, v) :: rest => k ++ ": ".data ++ v ++ "\r\n".data ++ headerLines rest

/-- The byte string built by `Client::send_request` before writing: request
line, `Host` line, header block, blank line, body appended only when
non-empty. -/
def send_request_string (req : Request) : Str :=
  method_to_string req.method ++ " ".data ++ req.url.full_path ++ " HTTP/1.1\r\n".data
    ++ "Host: ".data ++ req.url.host ++ "\r\n".data
    ++ headerLines req.headers.data
    ++ "\r\n".data
    ++ (if req.body ≠ [] then req.body else [])

/-- The wire form as §4.3 of the spec words it, for comparison with
`send_request_string`: `METHOD SP full_path SP "HTTP/1.1" CRLF`, then the
`Host` line, then each header as `Key: Value` CRLF, then a blank CRLF
line, then the raw body bytes if non-empty. -/
def wire_form_spec (req : Request) : Str :=
  (method_to_string req.method ++ [' '] ++ req.url.full_path ++ [' ']
      ++ "HTTP/1.1".data ++ "\r\n".data)
    ++ ("Host: ".data ++ req.url.host ++ "\r\n".data)
    ++ (req.headers.data.map (fun kv => kv.1 ++ ": ".data ++ kv.2 ++ "\r\n".data)).flatten
    ++ "\r\n".data
    ++ (if req.body = [] then [] else req.body)

/-! ### Client response reading (client_impl.cpp lines 68-137) -/

/-- Outcomes of `Client::read_response`: the returned parse error, or the
`std::stoull` exception propagating out of the function. -/
inductive ReadError where
  | parseError
  | thrown
deriving DecidableEq, Repr

/-- Loop state of `read_response`: the accumulation buffer, plus — once
`headers_done` — the parsed response, `content_length` and `is_chunked`. -/
structure LoopSt where
  buffer : Str
  parsed : Option (Response × Nat × Bool)
deriving DecidableEq, Repr

/-- client_impl.cpp lines 128-135: the code after the recv loop ends.  The
early `break` (lines 121-126) produces the same value because the body it
takes is a prefix of the remainder of length exactly `content_length`. -/
def finishSpec (resp : Response) (cl : Nat) (chunked : Bool) (rem : Str) :
    Except ReadError Response :=
  if chunked = false ∧ cl = 0 ∧ rem ≠ [] then .ok { resp with body := rem }
  else if chunked = false ∧ 0 < cl then .ok { resp with body := rem.take cl }
  else .ok resp

/-- Loop exit when `recv` reports end of stream (client_impl.cpp lines
77-78 and 128-135). -/
def finishRead (st : LoopSt) : Except ReadError Response :=
  match st.parsed with
  | none => .error .parseError
  | some (resp, cl, chunked) => finishSpec resp cl chunked st.buffer

/-- The `while (true)` recv loop of `Client::read_response`, one step per
delivered chunk: append the chunk; if headers are not yet done, look for
`CRLF CRLF` and on success parse the header section, drop it from the
buffer and read `Content-Length` (a `stoull` fault aborts) and the chunked
flag; then stop as soon as a non-chunked body of known positive length is
fully buffered. -/
def readLoop : LoopSt → List Str → Except ReadError Response
  | st, [] => finishRead st
  | st, chunk :: rest =>
    let buf := st.buffer ++ chunk
    match st.parsed with
    | some (resp, cl, chunked) =>
      if chunked = false ∧ 0 < cl ∧ cl ≤ buf.length then
        .ok { resp with body := buf.take cl }
      else readLoop ⟨buf, some (resp, cl, chunked)⟩ rest
    | none =>
      match findSub "\r\n\r\n".data buf with
      | none => readLoop ⟨buf, none⟩ rest
      | some he =>
        let resp := parseHeaderSection (buf.take he)
        match contentLengthOf resp.headers with
        | none => .error .thrown
        | some cl =>
          let chunked := chunkedOf resp.headers
          let buf2 := buf.drop (he + 4)
          if chunked = false ∧ 0 < cl ∧ cl ≤ buf2.length then
            .ok { resp with body := buf2.take cl }
          else readLoop ⟨buf2, some (resp, cl, chunked)⟩ rest

/-- Models `Client::read_response` on the list of chunks the transport delivers
(each `recv` return with `n > 0`; the list end is the `recv <= 0`). -/
def read_response (chunks : List Str) : Except ReadError Response :=
  readLoop ⟨[], none⟩ chunks

/-- The value of `read_response` as a function of the delivered byte stream alone:
fails when `CRLF CRLF` never occurs; otherwise parses the part before the
first occurrence as the header section and frames the body from the part
after it. -/
def streamRead (s : Str) : Except ReadError Response :=
  match findSub "\r\n\r\n".data s with
  | none => .error .parseError
  | some he =>
    let resp := parseHeaderSection (s.take he)
    match contentLengthOf resp.headers with
    | none => .error .thrown
    | some cl => finishSpec resp cl (chunkedOf resp.headers) (s.drop (he + 4))

/-! ### Server (server.cpp) -/

/-- The server-side parsed request built by `parse_request` (server.cpp);
`ServerRequest` itself is declared outside the sources at hand, its
fields are the ones server.cpp reads and writes. -/
structure ServerRequest where
  method : EMethod
  path : Str
  query : Str := []
  headers : Headers := {}
  body : Str := []
deriving DecidableEq, Repr

/-- The `Route` record (http.h lines 120-125).  A handler fault
(`throw std::exception` with a message) is modelled as `Except.error`. -/
structure Route where
  path : Str
  method : EMethod
  handler : ServerRequest → Except Str Response
  is_regex : Bool := false

/-- The header loop of `parse_request` (server.cpp lines 38-49): consume
lines until a `"\r"` or empty line, return the remaining lines. -/
def splitHeadersBody (h : Headers) : List Str → Headers × List Str
  | [] => (h, [])
  | line :: rest =>
    if line = ['\r'] ∨ line = [] then (h, rest)
    else splitHeadersBody (parseHeaderLine h line) rest

/-- server.cpp lines 50-57: join the remaining lines with newlines, then
pop one trailing newline. -/
def joinBodyLines (ls : List Str) : Str :=
  let s := ls.foldl (fun acc l => acc ++ l ++ ['\n']) []
  if s.getLast? = some '\n' then s.dropLast else s

/-- Models `parse_request` (server.cpp lines 18-60). -/
def parse_request (raw : Str) : Option ServerRequest :=
  match getlines raw with
  | [] => none
  | line :: rest =>
    let t1 := readToken line
    let t2 := readToken t1.2
    let pq :=
      match findSub ['?'] t2.1 with
      | some qp => (t2.1.take qp, t2.1.drop (qp + 1))
      | none => (t2.1, ([] : Str))
    let hb := splitHeadersBody {} rest
    some { method := string_to_method t1.1, path := pq.1, query := pq.2,
           headers := hb.1, body := joinBodyLines hb.2 }

/-- The routing loop of `Server::handle_client` (server.cpp lines
117-129): first route whose method and path both match; its handler fault
becomes a 500 response carrying the message. -/
def findRouteResponse (req : ServerRequest) (default : Response) : List Route → Response
  | [] => default
  | r :: rest =>
    if r.method = req.method ∧ r.path = req.path then
      match r.handler req with
      | .ok resp => resp
      | .error msg => Response.make 500 ("Error: ".data ++ msg)
    else findRouteResponse req default rest

/-- Models `Server::handle_client` (server.cpp lines 105-133) from the received
request bytes to the response it serializes back: default `404 Not Found`,
replaced by the first matching route's result. -/
def handle_client (routes : List Route) (request_data : Str) : Response :=
  match parse_request request_data with
  | none => Response.make 404 "Not Found".data
  | some req => findRouteResponse req (Response.make 404 "Not Found".data) routes

/-! ### Properties of `findSub` (`std::string::find`) -/

theorem findSub_nil (pat : Str) :
    findSub pat [] = if pat.isPrefixOf [] = true then some 0 else none := rfl

theorem findSub_cons (pat : Str) (c : Char) (s : Str) :
    findSub pat (c :: s) =
      if pat.isPrefixOf (c :: s) = true then some 0
      else (findSub pat s).map (· + 1) := rfl

theorem isPrefixOf_iff_ex : ∀ (p l : Str), p.isPrefixOf l = true ↔ ∃ t, l = p ++ t
  | [], l => by simp [List.isPrefixOf]
  | _ :: _, [] => by simp [List.isPrefixOf]
  | a :: as, b :: bs => by
    simp only [List.isPrefixOf, Bool.and_eq_true, beq_iff_eq, List.cons_append]
    constructor
    · rintro ⟨rfl, h⟩
      obtain ⟨t, rfl⟩ := (isPrefixOf_iff_ex as bs).1 h
      exact ⟨t, rfl⟩
    · rintro ⟨t, ht⟩
      injection ht with h1 h2
      exact ⟨h1.symm, (isPrefixOf_iff_ex as bs).2 ⟨t, h2⟩⟩

theorem findSub_some_iff (pat : Str) : ∀ (s : Str) (i : Nat),
    findSub pat s = some i ↔
      (pat.isPrefixOf (s.drop i) = true ∧ ∀ j, j < i → pat.isPrefixOf (s.drop j) = false) := by
  intro s
  induction s with
  | nil =>
    intro i
    rw [findSub_nil]
    by_cases hp : pat.isPrefixOf [] = true
    · rw [if_pos hp]
      constructor
      · intro h
        injection h with h0
        subst h0
        exact ⟨by rw [List.drop_nil]; exact hp, fun j hj => absurd hj (by omega)⟩
      · rintro ⟨h1, h2⟩
        have hi : i = 0 := by
          by_contra hne
          have h0 := h2 0 (by omega)
          rw [List.drop_nil] at h0
          rw [h0] at hp
          simp at hp
        subst hi
        rfl
    · rw [if_neg hp]
      constructor
      · intro h; simp at h
      · rintro ⟨h1, -⟩
        rw [List.drop_nil] at h1
        exact absurd h1 hp
  | cons c s' ih =>
    intro i
    rw [findSub_cons]
    by_cases hp : pat.isPrefixOf (c :: s') = true
    · rw [if_pos hp]
      constructor
      · intro h
        injection h with h0
        subst h0
        exact ⟨by rw [List.drop_zero]; exact hp, fun j hj => absurd hj (by omega)⟩
      · rintro ⟨h1, h2⟩
        have hi : i = 0 := by
          by_contra hne
          have h0 := h2 0 (by omega)
          rw [List.drop_zero] at h0
          rw [h0] at hp
          simp at hp
        subst hi
        rfl
    · rw [if_neg hp]
      cases i with
      | zero =>
        constructor
        · intro h
          cases hfs : findSub pat s' with
          | none => rw [hfs] at h; simp at h
          | some v => rw [hfs] at h; simp at h
        · rintro ⟨h1, -⟩
          rw [List.drop_zero] at h1
          exact absurd h1 hp
      | succ k =>
        constructor
        · intro h
          cases hfs : findSub pat s' with
          | none => rw [hfs] at h; simp at h
          | some v =>
            rw [hfs] at h
            simp only [Option.map_some', Option.some.injEq] at h
            have hv : v = k := by omega
            rw [hv] at hfs
            obtain ⟨h1, h2⟩ := (ih k).1 hfs
            refine ⟨h1, ?_⟩
            intro j hj
            cases j with
            | zero =>
              rw [List.drop_zero]
              exact Bool.eq_false_iff.2 hp
            | succ j' => exact h2 j' (by omega)
        · rintro ⟨h1, h2⟩
          have hk : findSub pat s' = some k :=
            (ih k).2 ⟨h1, fun j hj => h2 (j + 1) (by omega)⟩
          rw [hk]
          rfl

theorem findSub_none_iff_pre (pat : Str) : ∀ (s : Str),
    findSub pat s = none ↔ ∀ i, pat.isPrefixOf (s.drop i) = false := by
  intro s
  induction s with
  | nil =>
    rw [findSub_nil]
    by_cases hp : pat.isPrefixOf [] = true
    · rw [if_pos hp]
      constructor
      · intro h; simp at h
      · intro h
        have h0 := h 0
        rw [List.drop_nil] at h0
        rw [h0] at hp
        simp at hp
    · rw [if_neg hp]
      constructor
      · intro _ i
        rw [List.drop_nil]
        exact Bool.eq_false_iff.2 hp
      · intro _
        rfl
  | cons c s' ih =>
    rw [findSub_cons]
    by_cases hp : pat.isPrefixOf (c :: s') = true
    · rw [if_pos hp]
      constructor
      · intro h; simp at h
      · intro h
        have h0 := h 0
        rw [List.drop_zero] at h0
        rw [h0] at hp
        simp at hp
    · rw [if_neg hp]
      constructor
      · intro h i
        have hn : findSub pat s' = none := by
          cases hfs : findSub pat s' with
          | none => rfl
          | some v => rw [hfs] at h; simp at h
        cases i with
        | zero =>
          rw [List.drop_zero]
          exact Bool.eq_false_iff.2 hp
        | succ j => exact (ih.1 hn) j
      · intro h
        have hn : findSub pat s' = none := ih.2 (fun i => h (i + 1))
        rw [hn]
        rfl

theorem findSub_none_iff (pat s : Str) :
    findSub pat s = none ↔ ∀ a b, s ≠ a ++ pat ++ b := by
  rw [findSub_none_iff_pre]
  constructor
  · intro h a b hab
    have hd := h a.length
    rw [hab, List.append_assoc, List.drop_left] at hd
    have hpre : pat.isPrefixOf (pat ++ b) = true := (isPrefixOf_iff_ex pat _).2 ⟨b, rfl⟩
    rw [hd] at hpre
    simp at hpre
  · intro h i
    rw [Bool.eq_false_iff]
    intro hc
    obtain ⟨t, ht⟩ := (isPrefixOf_iff_ex pat _).1 hc
    apply h (s.take i) t
    conv_lhs => rw [← List.take_append_drop i s, ht]
    rw [List.append_assoc]

theorem findSub_some_length {pat s : Str} {i : Nat} (hpat : pat ≠ [])
    (h : findSub pat s = some i) : i + pat.length ≤ s.length := by
  obtain ⟨h1, -⟩ := (findSub_some_iff pat s i).1 h
  obtain ⟨t, ht⟩ := (isPrefixOf_iff_ex pat _).1 h1
  have hlen : s.length - i = pat.length + t.length := by
    have hc := congrArg List.length ht
    simpa using hc
  rcases Nat.lt_or_ge s.length i with hlt | hge
  · exfalso
    have hz : pat.length = 0 := by omega
    exact hpat (List.length_eq_zero.1 hz)
  · omega

theorem pre_append_of_le {p x y : Str} (h : p.isPrefixOf (x ++ y) = true)
    (hle : p.length ≤ x.length) : p.isPrefixOf x = true := by
  obtain ⟨t, ht⟩ := (isPrefixOf_iff_ex p _).1 h
  apply (isPrefixOf_iff_ex p x).2
  refine ⟨x.drop p.length, ?_⟩
  have hx : x.take p.length = p := by
    have h1 : (x ++ y).take p.length = x.take p.length :=
      List.take_append_of_le_length hle
    have h2 : (x ++ y).take p.length = p := by
      rw [ht, List.take_append_of_le_length (by omega), List.take_of_length_le (by omega)]
    rw [h1] at h2
    exact h2
  conv_lhs => rw [← List.take_append_drop p.length x, hx]

theorem findSub_append_left {pat s z : Str} {i : Nat}
    (h : findSub pat s = some i) : findSub pat (s ++ z) = some i := by
  by_cases hpat : pat = []
  · subst hpat
    have hi : i = 0 := by
      by_contra hne
      have := ((findSub_some_iff [] s i).1 h).2 0 (by omega)
      simp [List.isPrefixOf] at this
    subst hi
    cases s with
    | nil => cases z with
      | nil => rfl
      | cons c zz => simp [findSub, List.isPrefixOf]
    | cons c ss => simp [findSub, List.isPrefixOf]
  · obtain ⟨h1, h2⟩ := (findSub_some_iff pat s i).1 h
    have hlen := findSub_some_length hpat h
    apply (findSub_some_iff pat (s ++ z) i).2
    constructor
    · rw [List.drop_append_of_le_length (by omega)]
      obtain ⟨t, ht⟩ := (isPrefixOf_iff_ex pat _).1 h1
      exact (isPrefixOf_iff_ex pat _).2 ⟨t ++ z, by rw [ht, List.append_assoc]⟩
    · intro j hj
      rw [List.drop_append_of_le_length (by omega)]
      rw [Bool.eq_false_iff]
      intro hc
      have hple : pat.length ≤ (s.drop j).length := by
        rw [List.length_drop]; omega
      have := pre_append_of_le hc hple
      rw [h2 j hj] at this
      simp at this

theorem findSub_decomp_first {pat s a b : Str}
    (hs : s = a ++ pat ++ b)
    (hmin : ∀ j, j < a.length → pat.isPrefixOf (s.drop j) = false) :
    findSub pat s = some a.length := by
  apply (findSub_some_iff pat s a.length).2
  refine ⟨?_, hmin⟩
  rw [hs, List.append_assoc, List.drop_left]
  exact (isPrefixOf_iff_ex pat _).2 ⟨b, rfl⟩

theorem singleton_isPrefixOf (c : Char) (l : Str) :
    [c].isPrefixOf l = true ↔ l.head? = some c := by
  cases l with
  | nil => simp [List.isPrefixOf]
  | cons x xs =>
    show (c == x && List.isPrefixOf [] xs) = true ↔ some x = some c
    rw [show List.isPrefixOf ([] : Str) xs = true by cases xs <;> rfl, Bool.and_true,
      beq_iff_eq, Option.some.injEq]
    exact eq_comm

theorem findSub_singleton_none (c : Char) (s : Str) :
    findSub [c] s = none ↔ c ∉ s := by
  rw [findSub_none_iff]
  constructor
  · intro h hc
    obtain ⟨x, y, hxy⟩ := List.append_of_mem hc
    exact h x y (by rw [hxy]; simp)
  · intro h a b hab
    exact h (by rw [hab]; simp)

theorem findSub_singleton_decomp {c : Char} {s a b : Str}
    (hs : s = a ++ c :: b) (hc : c ∉ a) :
    findSub [c] s = some a.length := by
  have hs' : s = a ++ [c] ++ b := by
    rw [hs, List.append_assoc]
    rfl
  apply findSub_decomp_first hs'
  intro j hj
  rw [Bool.eq_false_iff]
  intro hpre
  rw [singleton_isPrefixOf] at hpre
  have hdrop : s.drop j = a.drop j ++ c :: b := by
    rw [hs, List.drop_append_of_le_length (by omega)]
  rw [hdrop] at hpre
  cases hd : a.drop j with
  | nil =>
    have hlen := congrArg List.length hd
    simp at hlen
    omega
  | cons x xs =>
    rw [hd] at hpre
    simp only [List.cons_append, List.head?_cons, Option.some.injEq] at hpre
    subst hpre
    exact hc (List.drop_subset j a (by rw [hd]; exact List.mem_cons_self x xs))

/-! ### Properties of the map model (`strLt`, `mapInsert`, `lookup`) -/

theorem strLt_irrefl : ∀ (s : Str), strLt s s = false
  | [] => rfl
  | c :: cs => by
    simp only [strLt, lt_irrefl, if_false]
    exact strLt_irrefl cs

theorem strLt_conn : ∀ (a b : Str), strLt a b = false → strLt b a = false → a = b
  | [], [], _, _ => rfl
  | [], _ :: _, h1, _ => by simp [strLt] at h1
  | _ :: _, [], _, h2 => by simp [strLt] at h2
  | a :: as, b :: bs, h1, h2 => by
    simp only [strLt] at h1 h2
    by_cases hab : a < b
    · rw [if_pos hab] at h1; exact absurd h1 (by simp)
    · rw [if_neg hab] at h1
      by_cases hba : b < a
      · rw [if_pos hba] at h2; exact absurd h2 (by simp)
      · rw [if_neg hba] at h2
        rw [if_neg hba] at h1
        rw [if_neg hab] at h2
        have hc : a = b := le_antisymm (not_lt.1 hba) (not_lt.1 hab)
        subst hc
        rw [strLt_conn as bs h1 h2]

theorem lookup_mapInsert_self (k v : Str) :
    ∀ (l : List (Str × Str)), (mapInsert k v l).lookup k = some v
  | [] => by simp [mapInsert, List.lookup]
  | (k', v') :: rest => by
    by_cases h1 : strLt k k' = true
    · simp [mapInsert, h1, List.lookup]
    · by_cases h2 : strLt k' k = true
      · have hne : k ≠ k' := by
          rintro rfl
          rw [strLt_irrefl] at h2
          exact absurd h2 (by simp)
        have hb : (k == k') = false := by simpa using hne
        simp only [mapInsert, h1, h2, if_false, if_true, List.lookup, hb]
        exact lookup_mapInsert_self k v rest
      · have heq : k = k' := strLt_conn k k' (by simpa using h1) (by simpa using h2)
        subst heq
        simp [mapInsert, h1, h2, List.lookup]

theorem mapInsert_collapse (k v v' : Str) :
    ∀ (l : List (Str × Str)), mapInsert k v (mapInsert k v' l) = mapInsert k v l
  | [] => by simp [mapInsert, strLt_irrefl]
  | (k', w) :: rest => by
    by_cases h1 : strLt k k' = true
    · simp [mapInsert, h1, strLt_irrefl]
    · by_cases h2 : strLt k' k = true
      · simp [mapInsert, h1, h2, mapInsert_collapse k v v' rest]
      · simp [mapInsert, h1, h2]

theorem length_mapInsert_congr (k v v' : Str) :
    ∀ (l : List (Str × Str)), (mapInsert k v l).length = (mapInsert k v' l).length
  | [] => rfl
  | (k', w) :: rest => by
    by_cases h1 : strLt k k' = true
    · simp [mapInsert, h1]
    · by_cases h2 : strLt k' k = true
      · simp [mapInsert, h1, h2, length_mapInsert_congr k v v' rest]
      · simp [mapInsert, h1, h2]

/-! ### The recv loop computes a function of the whole delivered stream -/

theorem readLoop_post :
    ∀ (rest : List Str) (buf : Str) (resp : Response) (cl : Nat) (ch : Bool),
      readLoop ⟨buf, some (resp, cl, ch)⟩ rest = finishSpec resp cl ch (buf ++ rest.flatten)
  | [], buf, resp, cl, ch => by
    simp [readLoop, finishRead]
  | chunk :: rest, buf, resp, cl, ch => by
    have unf : readLoop ⟨buf, some (resp, cl, ch)⟩ (chunk :: rest) =
        (if ch = false ∧ 0 < cl ∧ cl ≤ (buf ++ chunk).length then
          Except.ok { resp with body := (buf ++ chunk).take cl }
        else readLoop ⟨buf ++ chunk, some (resp, cl, ch)⟩ rest) := rfl
    rw [unf]
    have hflat : buf ++ (chunk :: rest).flatten = (buf ++ chunk) ++ rest.flatten := by
      rw [List.flatten_cons, ← List.append_assoc]
    rw [hflat]
    by_cases hbr : ch = false ∧ 0 < cl ∧ cl ≤ (buf ++ chunk).length
    · rw [if_pos hbr]
      simp only [finishSpec]
      rw [if_neg (by rintro ⟨-, h0, -⟩; omega), if_pos ⟨hbr.1, hbr.2.1⟩]
      rw [List.take_append_of_le_length hbr.2.2]
    · rw [if_neg hbr]
      exact readLoop_post rest (buf ++ chunk) resp cl ch

theorem readLoop_pre :
    ∀ (rest : List Str) (pre : Str),
      findSub "\r\n\r\n".data pre = none →
      readLoop ⟨pre, none⟩ rest = streamRead (pre ++ rest.flatten)
  | [], pre, hpre => by
    simp only [readLoop, finishRead, List.flatten_nil, List.append_nil, streamRead, hpre]
  | chunk :: rest, pre, hpre => by
    have hflat : pre ++ (chunk :: rest).flatten = (pre ++ chunk) ++ rest.flatten := by
      rw [List.flatten_cons, ← List.append_assoc]
    rw [hflat]
    cases hf : findSub "\r\n\r\n".data (pre ++ chunk) with
    | none =>
      have unf : readLoop ⟨pre, none⟩ (chunk :: rest) = readLoop ⟨pre ++ chunk, none⟩ rest := by
        simp only [readLoop, hf]
      rw [unf]
      exact readLoop_pre rest (pre ++ chunk) hf
    | some he =>
      have hl4 : he + 4 ≤ (pre ++ chunk).length := by
        have hx := findSub_some_length (show ("\r\n\r\n".data : Str) ≠ [] by decide) hf
        simpa using hx
      have htake : ((pre ++ chunk) ++ rest.flatten).take he = (pre ++ chunk).take he :=
        List.take_append_of_le_length (by omega)
      have hdrop : ((pre ++ chunk) ++ rest.flatten).drop (he + 4) =
          (pre ++ chunk).drop (he + 4) ++ rest.flatten :=
        List.drop_append_of_le_length (by omega)
      have hfind : findSub "\r\n\r\n".data ((pre ++ chunk) ++ rest.flatten) = some he :=
        findSub_append_left hf
      simp only [readLoop, streamRead, hf, hfind, htake, hdrop]
      cases hcl : contentLengthOf (parseHeaderSection ((pre ++ chunk).take he)).headers with
      | none => rfl
      | some cl =>
        simp only []
        by_cases hbr : chunkedOf (parseHeaderSection ((pre ++ chunk).take he)).headers = false ∧
            0 < cl ∧ cl ≤ ((pre ++ chunk).drop (he + 4)).length
        · rw [if_pos hbr]
          simp only [finishSpec]
          rw [if_neg (by rintro ⟨-, h0, -⟩; omega), if_pos ⟨hbr.1, hbr.2.1⟩]
          rw [List.take_append_of_le_length hbr.2.2]
        · rw [if_neg hbr]
          exact readLoop_post rest ((pre ++ chunk).drop (he + 4)) _ cl _

/-- Although written as a loop over the delivered chunks,
is a function of the concatenated byte stream alone. -/
theorem read_response_eq_streamRead (chunks : List Str) :
    read_response chunks = streamRead chunks.flatten := by
  have h := readLoop_pre chunks [] (by rfl)
  simpa [read_response] using h

/-! ### Helper lemmas for the claim theorems -/

theorem headerLines_eq_flatten : ∀ (l : List (Str × Str)),
    headerLines l = (l.map (fun kv => kv.1 ++ ": ".data ++ kv.2 ++ "\r\n".data)).flatten
  | [] => rfl
  | (k, v) :: rest => by
    rw [show headerLines ((k, v) :: rest)
          = k ++ ": ".data ++ v ++ "\r\n".data ++ headerLines rest from rfl,
      headerLines_eq_flatten rest, List.map_cons, List.flatten_cons]

theorem findRoute_no_match (req : ServerRequest) (d : Response) :
    ∀ (routes : List Route),
      (∀ r, r ∈ routes → ¬(r.method = req.method ∧ r.path = req.path)) →
      findRouteResponse req d routes = d
  | [], _ => rfl
  | r :: rest, h => by
    simp only [findRouteResponse]
    rw [if_neg (h r (List.mem_cons_self r rest))]
    exact findRoute_no_match req d rest (fun r' hr' => h r' (List.mem_cons_of_mem r hr'))

theorem findRoute_first (req : ServerRequest) (d : Response) (r : Route) (post : List Route)
    (hm : r.method = req.method) (hp : r.path = req.path) :
    ∀ (pre : List Route),
      (∀ r', r' ∈ pre → ¬(r'.method = req.method ∧ r'.path = req.path)) →
      findRouteResponse req d (pre ++ r :: post) =
        (match r.handler req with
          | .ok resp => resp
          | .error msg => Response.make 500 ("Error: ".data ++ msg))
  | [], _ => by
    simp only [List.nil_append, findRouteResponse]
    rw [if_pos ⟨hm, hp⟩]
  | r' :: pre, h => by
    simp only [List.cons_append, findRouteResponse]
    rw [if_neg (h r' (List.mem_cons_self r' pre))]
    exact findRoute_first req d r post hm hp pre (fun r2 hr2 => h r2 (List.mem_cons_of_mem r' hr2))

/-! ### Claim theorems -/

/-- C6: for every `Request`, the serialized wire form is exactly
`METHOD SP full_path SP "HTTP/1.1" CRLF`, a `Host` line with the URL's
host, each stored header as `Key: Value` CRLF, one blank CRLF line, then
the raw body bytes if and only if the body is non-empty. -/
theorem C6_request_serialization (req : Request) :
    send_request_string req = wire_form_spec req := by
  have hs1 : (" HTTP/1.1\r\n".data : Str) = [' '] ++ "HTTP/1.1".data ++ "\r\n".data := rfl
  by_cases hb : req.body = []
  · simp [send_request_string, wire_form_spec, headerLines_eq_flatten, hb, hs1,
      List.append_assoc]
  · simp [send_request_string, wire_form_spec, headerLines_eq_flatten, hb, hs1,
      List.append_assoc]

/-- C7: URL parsing fails (with the missing-scheme error) exactly when the
input has no `"://"` substring, and succeeds on every input containing
`"://"`. -/
theorem C7_url_parse_success (s : Str) :
    ((∃ a b, s = a ++ "://".data ++ b) → ∃ u, URL.parse s = .ok u)
    ∧ ((¬ ∃ a b, s = a ++ "://".data ++ b) →
        URL.parse s = .error "Invalid URL: missing scheme".data) := by
  constructor
  · rintro ⟨a, b, rfl⟩
    cases hf : findSub "://".data (a ++ "://".data ++ b) with
    | none =>
      rw [findSub_none_iff] at hf
      exact absurd rfl (hf a b)
    | some se =>
      cases hv : URL.parse (a ++ "://".data ++ b) with
      | ok u => exact ⟨u, rfl⟩
      | error e =>
        exfalso
        unfold URL.parse at hv
        rw [hf] at hv
        simp at hv
  · intro h
    have hf : findSub "://".data s = none :=
      (findSub_none_iff _ s).2 (fun a b hab => h ⟨a, b, hab⟩)
    unfold URL.parse
    rw [hf]

/-- Witness for C7 at concrete inputs: a URL with `"://"` parses, one
without fails with the missing-scheme error. -/
theorem C7_witness :
    (∃ u, URL.parse "http://h/p".data = .ok u)
    ∧ URL.parse "nope".data = .error "Invalid URL: missing scheme".data := by
  constructor
  · exact (C7_url_parse_success "http://h/p".data).1
      ⟨"http".data, "h/p".data, by decide⟩
  · exact (C7_url_parse_success "nope".data).2 (by
      rintro ⟨a, b, hab⟩
      have hf : findSub "://".data "nope".data = none := by decide
      rw [findSub_none_iff] at hf
      exact hf a b hab)

/-- C9: header lookups are case-insensitive; `set` then `get` of a
case-insensitively equal key returns the stored value; re-setting a
case-insensitively equal key overwrites (the store equals the one from a
single `set`, and its size does not grow); `get` of an absent key returns
the empty string; `has` is a case-insensitive membership test. -/
theorem C9_headers_case_insensitive (h : Headers) (k k' k2 v v' : Str)
    (hlk : lowerStr k = lowerStr k') :
    (h.set k v).get k' = v
    ∧ (h.set k v).set k' v' = h.set k' v'
    ∧ ((h.set k v).set k' v').data.length = (h.set k v).data.length
    ∧ (h.has k2 = false → h.get k2 = [])
    ∧ h.has k = h.has k' := by
  refine ⟨?_, ?_, ?_, ?_, ?_⟩
  · simp only [Headers.get, Headers.set, ← hlk]
    rw [lookup_mapInsert_self]
    rfl
  · simp only [Headers.set, ← hlk]
    rw [mapInsert_collapse]
  · simp only [Headers.set, ← hlk]
    rw [mapInsert_collapse]
    exact length_mapInsert_congr (lowerStr k) v' v h.data
  · intro habs
    simp only [Headers.has] at habs
    simp only [Headers.get]
    cases hl : h.data.lookup (lowerStr k2) with
    | none => rfl
    | some w => rw [hl] at habs; simp at habs
  · simp only [Headers.has, hlk]

/-- Witness for C9 at concrete inputs (the header-test scenario of the
repository: `Content-Type` set, read back as `CONTENT-TYPE`). -/
theorem C9_witness :
    ((({} : Headers).set "Content-Type".data "application/json".data).get
        "CONTENT-TYPE".data = "application/json".data)
    ∧ ((({} : Headers).set "Content-Type".data "text/html".data).set
        "content-type".data "application/json".data
        = ({} : Headers).set "content-type".data "application/json".data)
    ∧ (({} : Headers).has "NonExistent".data = false → ({} : Headers).get "NonExistent".data = []) := by
  have h1 := C9_headers_case_insensitive {} "Content-Type".data "CONTENT-TYPE".data
    "NonExistent".data "application/json".data "application/json".data (by decide)
  have h2 := C9_headers_case_insensitive {} "Content-Type".data "content-type".data
    "NonExistent".data "text/html".data "application/json".data (by decide)
  exact ⟨h1.1, h2.2.1, h2.2.2.2.1⟩

/-- C4 (amended): after `set_body(data)`, the `Content-Length` header
equals the byte length of `data` exactly when no `Content-Length` header
was present before the call — whether set explicitly or by an earlier
`set_body`; when one was present, the headers are left unchanged, so the
header does not track the current body after repeated `set_body` calls. -/
theorem C4_content_length_set_body (r : Request) (d : Str) :
    (r.headers.has "Content-Length".data = false →
      (r.set_body d).headers.get "Content-Length".data = natToStr d.length
      ∧ (r.set_body d).body = d)
    ∧ (r.headers.has "Content-Length".data = true →
      (r.set_body d).headers = r.headers ∧ (r.set_body d).body = d) := by
  constructor
  · intro habs
    simp only [Request.set_body]
    rw [if_neg (by simpa using habs)]
    refine ⟨?_, rfl⟩
    simp only [Headers.get, Headers.set]
    rw [lookup_mapInsert_self]
    rfl
  · intro hpres
    simp only [Request.set_body]
    rw [if_pos hpres]
    exact ⟨rfl, rfl⟩

/-- Counterexample for C4 as stated: two consecutive `set_body` calls on a
fresh request leave `Content-Length` at the first body's length (`"2"`)
while the body is 4 bytes long, although the header was never explicitly
overridden. -/
theorem C4_counterexample :
    ((({} : Request).set_body "ab".data).set_body "wxyz".data).body = "wxyz".data
    ∧ ((({} : Request).set_body "ab".data).set_body "wxyz".data).headers.get
        "Content-Length".data = "2".data
    ∧ natToStr ((((({} : Request).set_body "ab".data).set_body "wxyz".data).body).length)
        = "4".data
    ∧ ("2".data : Str) ≠ "4".data := by
  refine ⟨by decide, by decide, by decide, by decide⟩

/-- Witness for C4 at a concrete input: the request-test scenario, body
`"test body content"` (17 bytes) on a fresh request gives
`Content-Length == "17"`. -/
theorem C4_witness :
    (({} : Request).set_body "test body content".data).headers.get
        "Content-Length".data = natToStr ("test body content".data).length
    ∧ (({} : Request).set_body "test body content".data).body
        = "test body content".data := by
  exact (C4_content_length_set_body {} "test body content".data).1 (by decide)

/-- C2: the response is produced by the first route whose method and path
both equal the parsed request's; with no match it is `404 Not Found`; a
matched handler's fault is caught and becomes a `500` response whose body
contains the fault's message. -/
theorem C2_server_routing (routes : List Route) (data : Str) (req : ServerRequest)
    (hp : parse_request data = some req) :
    ((∀ r, r ∈ routes → ¬(r.method = req.method ∧ r.path = req.path)) →
      handle_client routes data = Response.make 404 "Not Found".data)
    ∧ (∀ pre r post,
        routes = pre ++ r :: post →
        (∀ r', r' ∈ pre → ¬(r'.method = req.method ∧ r'.path = req.path)) →
        r.method = req.method → r.path = req.path →
          (∀ resp, r.handler req = .ok resp → handle_client routes data = resp)
          ∧ (∀ msg, r.handler req = .error msg →
              handle_client routes data = Response.make 500 ("Error: ".data ++ msg)
              ∧ ∃ x y, (handle_client routes data).body = x ++ msg ++ y)) := by
  constructor
  · intro hnone
    simp only [handle_client, hp]
    exact findRoute_no_match req _ routes hnone
  · intro pre r post hsplit hpre hm hpath
    have hfr : handle_client routes data =
        (match r.handler req with
          | .ok resp => resp
          | .error msg => Response.make 500 ("Error: ".data ++ msg)) := by
      simp only [handle_client, hp, hsplit]
      exact findRoute_first req _ r post hm hpath pre hpre
    constructor
    · intro resp hresp
      rw [hfr, hresp]
    · intro msg hmsg
      rw [hfr, hmsg]
      refine ⟨rfl, "Error: ".data, [], ?_⟩
      simp [Response.make]

/-- Witness for C2 at a concrete input: one registered faulty route,
matched by a parsed GET request, yields the 500 conversion. -/
theorem C2_witness :
    handle_client
        [{ path := "/x".data, method := .GET,
           handler := fun _ => .error "boom".data, is_regex := false }]
        "GET /x HTTP/1.1\r\n\r\n".data
      = Response.make 500 ("Error: ".data ++ "boom".data) := by
  have h := C2_server_routing
    [{ path := "/x".data, method := .GET,
       handler := fun _ => .error "boom".data, is_regex := false }]
    "GET /x HTTP/1.1\r\n\r\n".data
    { method := .GET, path := "/x".data, query := [], headers := {}, body := [] }
    (by rfl)
  exact ((h.2 [] _ [] rfl (by intro r' hr'; cases hr') rfl rfl).2 "boom".data rfl).1

/-- C10: every method token other than the seven known ones maps to `GET`,
and a server request with an unrecognized method token is parsed with
method `GET` and can match a registered GET route. -/
theorem C10_unknown_method_get :
    (∀ s : Str, s ≠ "GET".data → s ≠ "POST".data → s ≠ "PUT".data → s ≠ "DELETE".data →
      s ≠ "HEAD".data → s ≠ "PATCH".data → s ≠ "OPTIONS".data → string_to_method s = .GET)
    ∧ (∀ handler : ServerRequest → Except Str Response,
        parse_request "FROB /x HTTP/1.1".data
          = some { method := .GET, path := "/x".data, query := [], headers := {}, body := [] }
        ∧ (∀ resp,
            handler { method := .GET, path := "/x".data, query := [], headers := {}, body := [] }
              = .ok resp →
            handle_client
              [{ path := "/x".data, method := .GET, handler := handler, is_regex := false }]
              "FROB /x HTTP/1.1".data = resp)) := by
  constructor
  · intro s h1 h2 h3 h4 h5 h6 h7
    simp only [string_to_method, h1, h2, h3, h4, h5, h6, h7, if_false]
  · intro handler
    refine ⟨by rfl, ?_⟩
    intro resp hresp
    simp only [handle_client,
      show parse_request "FROB /x HTTP/1.1".data
        = some { method := EMethod.GET, path := "/x".data, query := [], headers := {},
                 body := [] } from rfl]
    simp only [findRouteResponse]
    rw [if_pos (by exact ⟨trivial, trivial⟩), hresp]

/-- Witness for C10 at a concrete input: the unknown token `FROB` maps to
`GET`. -/
theorem C10_witness : string_to_method "FROB".data = EMethod.GET :=
  C10_unknown_method_get.1 "FROB".data (by decide) (by decide) (by decide) (by decide)
    (by decide) (by decide) (by decide)

/-- The `host_end` computation takes exactly the characters before the
first `/` or `?`. -/
theorem take_hostLen : ∀ (t : Str),
    t.take (hostLen t) = t.takeWhile (fun c => !(c == '/' || c == '?'))
  | [] => rfl
  | c :: cs => by
    by_cases hsl : c = '/'
    · subst hsl
      have hf : findSub ['/'] ('/' :: cs) = some 0 := by
        rw [findSub_cons, if_pos ((singleton_isPrefixOf '/' ('/' :: cs)).2 rfl)]
      unfold hostLen
      rw [hf]
      cases hq : findSub ['?'] ('/' :: cs) with
      | none => simp [List.takeWhile_cons]
      | some b => simp [List.takeWhile_cons, Nat.zero_min]
    · by_cases hqm : c = '?'
      · subst hqm
        have hfq : findSub ['?'] ('?' :: cs) = some 0 := by
          rw [findSub_cons, if_pos ((singleton_isPrefixOf '?' ('?' :: cs)).2 rfl)]
        unfold hostLen
        rw [hfq]
        cases hp : findSub ['/'] ('?' :: cs) with
        | none => simp [List.takeWhile_cons]
        | some a => simp [List.takeWhile_cons, Nat.min_zero]
      · have hf1 : findSub ['/'] (c :: cs) = (findSub ['/'] cs).map (· + 1) := by
          rw [findSub_cons, if_neg]
          rw [singleton_isPrefixOf]
          simp [hsl]
        have hf2 : findSub ['?'] (c :: cs) = (findSub ['?'] cs).map (· + 1) := by
          rw [findSub_cons, if_neg]
          rw [singleton_isPrefixOf]
          simp [hqm]
        have hw : (!(c == '/' || c == '?')) = true := by simp [hsl, hqm]
        have ih := take_hostLen cs
        unfold hostLen at ih ⊢
        rw [hf1, hf2, List.takeWhile_cons, if_pos hw]
        cases hp : findSub ['/'] cs with
        | none =>
          cases hq : findSub ['?'] cs with
          | none =>
            rw [hp, hq] at ih
            simpa [List.take_succ_cons] using ih
          | some b =>
            rw [hp, hq] at ih
            simpa [List.take_succ_cons] using ih
        | some a =>
          cases hq : findSub ['?'] cs with
          | none =>
            rw [hp, hq] at ih
            simpa [List.take_succ_cons] using ih
          | some b =>
            rw [hp, hq] at ih
            simp only [Option.map_some']
            rw [show min (a + 1) (b + 1) = min a b + 1 from by omega]
            simpa [List.take_succ_cons] using ih

/-- C5 (amended): every successfully parsed URL has a non-empty path
(`"/"` when the input has no `/` after the scheme separator); when the
host segment has no `:` the port is `"443"` for scheme `https` and `"80"`
otherwise; an explicit `:` in the host segment sets the port to the text
after it, overriding the default (that text, like scheme and host, may be
empty when the corresponding input characters are absent). -/
theorem C5_url_invariants (raw : Str) (u : URL) (h : URL.parse raw = .ok u) :
    u.path ≠ []
    ∧ ('/' ∉ urlTail raw → u.path = "/".data)
    ∧ (':' ∉ hostSegment raw →
        u.port = (if u.scheme = "https".data then "443".data else "80".data))
    ∧ (∀ a b, hostSegment raw = a ++ ':' :: b → ':' ∉ a → u.port = b) := by
  unfold URL.parse at h
  cases hse : findSub "://".data raw with
  | none => rw [hse] at h; simp at h
  | some se =>
    rw [hse] at h
    simp only [Except.ok.injEq] at h
    subst h
    have htail : urlTail raw = raw.drop (se + 3) := by
      unfold urlTail
      rw [hse]
    have hseg : hostSegment raw = (raw.drop (se + 3)).take (hostLen (raw.drop (se + 3))) := by
      unfold hostSegment
      rw [htail, take_hostLen]
    refine ⟨?_, ?_, ?_, ?_⟩
    · -- path non-empty
      cases hp : findSub ['/'] (raw.drop (se + 3)) with
      | none => simp [hp]
      | some ps =>
        have hhead : ((raw.drop (se + 3)).drop ps).head? = some '/' :=
          (singleton_isPrefixOf _ _).1
            ((findSub_some_iff ['/'] (raw.drop (se + 3)) ps).1 hp).1
        have hne : (raw.drop (se + 3)).drop ps ≠ [] := by
          intro hnil
          rw [hnil] at hhead
          simp at hhead
        cases hq : findSub ['?'] (raw.drop (se + 3)) with
        | none => simp only [hp, hq]; exact hne
        | some qs =>
          have hqhead : ((raw.drop (se + 3)).drop qs).head? = some '?' :=
            (singleton_isPrefixOf _ _).1
              ((findSub_some_iff ['?'] (raw.drop (se + 3)) qs).1 hq).1
          have hnq : qs ≠ ps := by
            intro hqp
            rw [hqp] at hqhead
            rw [hqhead] at hhead
            simp at hhead
          simp only [hp, hq]
          by_cases hlt : qs < ps
          · rw [if_pos hlt]
            exact hne
          · rw [if_neg hlt]
            rw [Ne, List.take_eq_nil_iff]
            rintro (h0 | h0)
            · omega
            · exact hne h0
    · -- no '/' in the tail: path is "/"
      intro hns
      rw [htail] at hns
      have hp : findSub ['/'] (raw.drop (se + 3)) = none :=
        (findSub_singleton_none _ _).2 hns
      simp [hp]
    · -- no ':' in the host segment: default port by scheme
      intro hns
      rw [hseg] at hns
      have hpp : findSub [':'] ((raw.drop (se + 3)).take (hostLen (raw.drop (se + 3)))) = none :=
        (findSub_singleton_none _ _).2 hns
      simp [hpp]
    · -- explicit ':' in the host segment overrides the default
      intro a b hab hnin
      rw [hseg] at hab
      have hpp := findSub_singleton_decomp hab hnin
      simp only [hpp]
      rw [hab]
      have hsplit : a ++ ':' :: b = (a ++ [':']) ++ b := by
        rw [List.append_assoc]
        rfl
      rw [hsplit, List.drop_left' (by simp)]

/-- Counterexample for C5 as stated: the input `"://:/x"` parses
successfully, yet scheme, host and port are all empty. -/
theorem C5_counterexample :
    URL.parse "://:/x".data
      = .ok { scheme := [], host := [], port := [], path := "/x".data, query := [] } := by
  decide

/-- Witness for C5 at a concrete input: no path and an https default
port. -/
theorem C5_witness :
    ∃ u, URL.parse "https://h".data = .ok u ∧ u.path = "/".data ∧ u.port = "443".data := by
  have hconc : URL.parse "https://h".data
      = .ok { scheme := "https".data, host := "h".data, port := "443".data,
              path := "/".data, query := [] } := by decide
  have h := C5_url_invariants "https://h".data _ hconc
  refine ⟨_, hconc, h.2.1 (by decide), ?_⟩
  have hp := h.2.2.1 (by decide)
  rw [hp]
  decide

/-- C8: the query of a parsed URL is everything from the first `?` after
the scheme separator to the end (including the `?`), or empty when there
is none, and `full_path()` is the verbatim concatenation of path and
query; `parse("http://h/s?q=t").full_path() == "/s?q=t"`. -/
theorem C8_query_full_path :
    (∀ raw u, URL.parse raw = .ok u →
      u.full_path = u.path ++ u.query
      ∧ ('?' ∉ urlTail raw → u.query = [])
      ∧ (∀ a b, urlTail raw = a ++ '?' :: b → '?' ∉ a → u.query = '?' :: b))
    ∧ (∃ u0, URL.parse "http://h/s?q=t".data = .ok u0 ∧ u0.full_path = "/s?q=t".data) := by
  constructor
  · intro raw u h
    unfold URL.parse at h
    cases hse : findSub "://".data raw with
    | none => rw [hse] at h; simp at h
    | some se =>
      rw [hse] at h
      simp only [Except.ok.injEq] at h
      subst h
      have htail : urlTail raw = raw.drop (se + 3) := by
        unfold urlTail
        rw [hse]
      refine ⟨rfl, ?_, ?_⟩
      · intro hns
        rw [htail] at hns
        have hq : findSub ['?'] (raw.drop (se + 3)) = none :=
          (findSub_singleton_none _ _).2 hns
        simp [hq]
      · intro a b hab hnin
        rw [htail] at hab
        have hq := findSub_singleton_decomp hab hnin
        simp only [hq]
        rw [hab, List.drop_left]
  · exact ⟨{ scheme := "http".data, host := "h".data, port := "80".data,
             path := "/s".data, query := "?q=t".data }, by decide, by decide⟩

/-- Witness for C8 at a concrete input: query without a path segment. -/
theorem C8_witness :
    ∃ u, URL.parse "http://h?q=1".data = .ok u ∧ u.query = "?q=1".data
      ∧ u.full_path = u.path ++ u.query := by
  have hconc : URL.parse "http://h?q=1".data
      = .ok { scheme := "http".data, host := "h".data, port := "80".data,
              path := "/".data, query := "?q=1".data } := by decide
  have h := C8_query_full_path.1 "http://h?q=1".data _ hconc
  refine ⟨_, hconc, ?_, h.1⟩
  exact h.2.2 "h".data "q=1".data (by decide) (by decide)

/-- C1 (amended): the reader returns the parse error exactly when
`CRLF CRLF` never appears in the delivered stream; when it appears, a
present but non-numeric (or out-of-range) `Content-Length` makes the
`stoull` fault escape; otherwise, when not chunked, the body is the first
`Content-Length` bytes after the header block when that many arrived and
all arrived bytes otherwise (`Content-Length` 0 or absent: all remaining
bytes). -/
theorem C1_client_read_framing (chunks : List Str) :
    (read_response chunks = .error .parseError ↔
      ∀ a b, chunks.flatten ≠ a ++ "\r\n\r\n".data ++ b)
    ∧ (∀ a b, chunks.flatten = a ++ "\r\n\r\n".data ++ b →
        (∀ j, j < a.length → ("\r\n\r\n".data).isPrefixOf (chunks.flatten.drop j) = false) →
          (contentLengthOf (parseHeaderSection a).headers = none →
            read_response chunks = .error .thrown)
          ∧ (∀ cl, contentLengthOf (parseHeaderSection a).headers = some cl →
              chunkedOf (parseHeaderSection a).headers = false →
              read_response chunks
                = .ok { parseHeaderSection a with body := if cl = 0 then b else b.take cl })) := by
  rw [read_response_eq_streamRead]
  constructor
  · rw [← findSub_none_iff]
    constructor
    · intro h
      cases hf : findSub "\r\n\r\n".data chunks.flatten with
      | none => rfl
      | some he =>
        exfalso
        simp only [streamRead, hf] at h
        cases hcl : contentLengthOf
            (parseHeaderSection (chunks.flatten.take he)).headers with
        | none =>
          simp only [hcl] at h
          exact absurd h (by simp)
        | some cl =>
          simp only [hcl] at h
          unfold finishSpec at h
          split_ifs at h
    · intro hf
      simp only [streamRead, hf]
  · intro a b hab hmin
    have hf : findSub "\r\n\r\n".data chunks.flatten = some a.length :=
      findSub_decomp_first hab hmin
    have htake : chunks.flatten.take a.length = a := by
      rw [hab, List.append_assoc, List.take_left]
    have hdrop : chunks.flatten.drop (a.length + 4) = b := by
      rw [hab, List.drop_left' (by simp)]
    simp only [streamRead, hf, htake]
    constructor
    · intro hcl
      simp only [hcl]
    · intro cl hcl hch
      simp only [hcl, hch, hdrop]
      rcases Nat.eq_zero_or_pos cl with h0 | hpos
      · subst h0
        by_cases hb : b = []
        · subst hb
          unfold finishSpec
          rw [if_neg (by rintro ⟨-, -, hne⟩; exact hne rfl),
            if_neg (by rintro ⟨-, h0⟩; omega)]
          rfl
        · unfold finishSpec
          rw [if_pos ⟨rfl, rfl, hb⟩]
          rfl
      · unfold finishSpec
        rw [if_neg (by rintro ⟨-, h0, -⟩; omega), if_pos ⟨rfl, hpos⟩,
          if_neg (by omega)]

/-- Counterexample for C1 as stated: (i) with `Content-Length: 5` but only
2 bytes delivered after the header block the reader returns a 2-byte body,
not "exactly the first 5 bytes"; (ii) with a non-numeric `Content-Length`
the header terminator is present and yet the call does not return normally
(the `std::stoull` fault escapes). -/
theorem C1_counterexample :
    (∃ r, read_response ["HTTP/1.1 200 OK\r\nContent-Length: 5\r\n\r\nab".data] = .ok r
      ∧ r.headers.get "content-length".data = "5".data
      ∧ r.body = "ab".data
      ∧ r.body.length ≠ 5)
    ∧ (∃ a b, ("HTTP/1.1 200 OK\r\nContent-Length: abc\r\n\r\nxy".data : Str)
        = a ++ "\r\n\r\n".data ++ b)
    ∧ read_response ["HTTP/1.1 200 OK\r\nContent-Length: abc\r\n\r\nxy".data]
        = .error .thrown := by
  refine ⟨⟨_, rfl, by decide, by decide, by decide⟩,
    ⟨"HTTP/1.1 200 OK\r\nContent-Length: abc".data, "xy".data, by decide⟩, by decide⟩

/-- Witness for C1 at a concrete input: a complete response with
`Content-Length: 2` frames exactly the two body bytes. -/
theorem C1_witness :
    read_response ["HTTP/1.1 200 OK\r\nContent-Length: 2\r\n\r\nhi".data]
      = .ok { parseHeaderSection "HTTP/1.1 200 OK\r\nContent-Length: 2".data with
              body := if 2 = 0 then "hi".data else ("hi".data).take 2 } := by
  have h := (C1_client_read_framing
      ["HTTP/1.1 200 OK\r\nContent-Length: 2\r\n\r\nhi".data]).2
    "HTTP/1.1 200 OK\r\nContent-Length: 2".data "hi".data (by decide) (by decide)
  exact (h.2 2 (by decide) (by decide))

/-- C3 (amended): when the parsed headers flag chunked transfer encoding,
the reader records the flag (visible through `Transfer-Encoding` in the
returned headers) but the returned body is empty: the received body bytes
are discarded, not passed through. -/
theorem C3_chunked_body_empty (chunks : List Str) (r : Response)
    (h : read_response chunks = .ok r) (hch : chunkedOf r.headers = true) :
    r.body = [] := by
  rw [read_response_eq_streamRead] at h
  cases hf : findSub "\r\n\r\n".data chunks.flatten with
  | none =>
    simp only [streamRead, hf] at h
    exact absurd h (by simp)
  | some he =>
    simp only [streamRead, hf] at h
    cases hcl : contentLengthOf
        (parseHeaderSection (chunks.flatten.take he)).headers with
    | none =>
      simp only [hcl] at h
      exact absurd h (by simp)
    | some cl =>
      simp only [hcl] at h
      unfold finishSpec at h
      split_ifs at h with h1 h2
      · simp only [Except.ok.injEq] at h
        subst h
        have hh : chunkedOf (parseHeaderSection (chunks.flatten.take he)).headers = true := hch
        rw [h1.1] at hh
        exact absurd hh (by simp)
      · simp only [Except.ok.injEq] at h
        subst h
        have hh : chunkedOf (parseHeaderSection (chunks.flatten.take he)).headers = true := hch
        rw [h2.1] at hh
        exact absurd hh (by simp)
      · simp only [Except.ok.injEq] at h
        subst h
        rfl

/-- Counterexample for C3 as stated: a chunked response whose body bytes
(`"5\r\nhello\r\n0\r\n\r\n"`, non-empty) are not delivered at all — the
returned body is empty rather than the raw received bytes. -/
theorem C3_counterexample :
    ∃ r, read_response
        ["HTTP/1.1 200 OK\r\nTransfer-Encoding: chunked\r\n\r\n5\r\nhello\r\n0\r\n\r\n".data]
      = .ok r
      ∧ chunkedOf r.headers = true
      ∧ r.body = []
      ∧ ("5\r\nhello\r\n0\r\n\r\n".data : Str) ≠ [] := by
  exact ⟨_, rfl, by decide, by decide, by decide⟩

/-- Witness for C3 at a concrete input, via the amended theorem. -/
theorem C3_witness :
    ∃ r, read_response
        ["HTTP/1.1 200 OK\r\nTransfer-Encoding: chunked\r\n\r\nhello".data]
      = .ok r ∧ chunkedOf r.headers = true ∧ r.body = [] := by
  refine ⟨_, rfl, by decide, ?_⟩
  exact C3_chunked_body_empty
    ["HTTP/1.1 200 OK\r\nTransfer-Encoding: chunked\r\n\r\nhello".data] _ rfl (by decide)

end Http
